/-
  Verification of the formatting-preserving document patch engine of the
  ContratosCS repository.

  The engine converts a structured word-processing document into a flat
  text representation (paragraph lines plus `[TABELA_JSON]…[/TABELA_JSON]`
  table markers), lets a client edit that flat text, and re-applies the
  edits onto the original document graph, mutating only text.

  Two parts are embedded here:

  * the backend engine (extractor / correspondence mapper / patcher /
    orchestrator).  Its Python service code is not present under `src/`;
    what `src/` holds are the project's design documents
    (`src/unnamed/part_000`, `src/SOLUCAO_PRESERVACAO_FORMATACAO.md`)
    whose embedded Python snippets fix the deciding behaviours
    (extraction emits a line for every paragraph, the edited-content
    filter drops blank and marker lines, runs after the first are removed
    from a patched paragraph, the fallback runs once inside `except`).
    Definitions below follow those snippets where they exist and are
    marked `Modelled from the spec:` where only the spec describes the
    behaviour.

  * the frontend flat-text processing of
    `src/frontend/src/components/ContractViewer.tsx`
    (`updateEditedContent`, `processEditableContent`,
    `processTableContent`, `updateCell`, `loadContent`), embedded
    character-faithfully over `List Char`.
-/
import Mathlib

namespace ContratosCS

/-! ## Document object model

A word-processing document as the engine sees it: ordered blocks, each a
paragraph (list of runs) or a table (rows of cells of paragraphs).  Every
node carries an opaque `Nat` payload standing for all of its non-text
attributes (fonts, borders, widths, images anchored in runs, …); the
document itself carries `docRest` for headers/footers, section and page
properties, style definitions and embedded media parts. -/

/-- A run: a contiguous span of text sharing one formatting definition.
`fmt` is the opaque non-text payload of the run. -/
structure Run where
  text : String
  fmt : Nat
deriving Repr, DecidableEq

/-- A paragraph: ordered runs plus opaque paragraph-level formatting. -/
structure Paragraph where
  runs : List Run
  pfmt : Nat
deriving Repr, DecidableEq

/-- Paragraph text: the concatenation of its runs' texts (as
`paragraph.text` in python-docx). -/
def Paragraph.text (p : Paragraph) : String :=
  String.join (p.runs.map Run.text)

/-- A table cell: paragraphs plus opaque cell formatting. -/
structure Cell where
  paragraphs : List Paragraph
  cfmt : Nat
deriving Repr, DecidableEq

/-- A table row. -/
structure Row where
  cells : List Cell
  rfmt : Nat
deriving Repr, DecidableEq

/-- A table. -/
structure Table where
  rows : List Row
  tfmt : Nat
deriving Repr, DecidableEq

/-- A top-level block: paragraph or table (the `CT_P` / `CT_Tbl` walk of
`doc.element.body` in the service snippets). -/
inductive Block where
  | para (p : Paragraph)
  | table (t : Table)
deriving Repr, DecidableEq

/-- A document: top-level blocks plus `docRest`, the opaque payload for
every part the patch never visits (headers, footers, section/page
properties, styles, media). -/
structure Document where
  blocks : List Block
  docRest : Nat
deriving Repr, DecidableEq

/-- A table grid: the 2-D string array interchanged with the editor. -/
abbrev Grid := List (List String)

/-- The whitespace characters removed by `str.strip()` / `String.trim`. -/
def stripChar (c : Char) : Bool :=
  c = ' ' || c = '\t' || c = '\n' || c = '\r' || c = '\x0b' || c = '\x0c'

/-- `str.strip()`: remove leading and trailing whitespace.  (Defined over
the character list so that it evaluates inside the kernel.) -/
def strip (s : String) : String :=
  String.mk (((s.toList.dropWhile stripChar).reverse.dropWhile stripChar).reverse)

/-! ## Extraction -/

/-- Cell text used by extraction.  Modelled from the spec: the grid cell
is the first paragraph's trimmed text, degrading to `""` (spec §4.1; the
backend extractor's code is not under `src/`). -/
def cellText (c : Cell) : String :=
  ((c.paragraphs.head?).map (fun p => strip p.text)).getD ""

/-- Grid of a table, row-major. -/
def gridOf (t : Table) : Grid :=
  t.rows.map (fun r => r.cells.map cellText)

/-- A line of extracted (serialized) content: plain paragraph text or a
table marker carrying its grid. -/
inductive XLine where
  | plain (s : String)
  | marker (g : Grid)
deriving Repr, DecidableEq

/-- Extraction.  Per `src/unnamed/part_000` lines 41–48: every
paragraph — empty or not — emits exactly one line holding its trimmed
text (`content_lines.append(paragraph_text)` / `content_lines.append("")`);
each table emits one marker line with its grid. -/
def extractLine : Block → XLine
  | .para p => .plain (strip p.text)
  | .table t => .marker (gridOf t)

/-- Extraction of a whole document: one line per top-level block. -/
def extract (d : Document) : List XLine :=
  d.blocks.map extractLine

/-! ## Correspondence mapping -/

/-- A line of the parsed edited flat text.  A marker line carries
`some grid` when its JSON parsed and `none` when it did not
(MalformedTableMarker). -/
inductive EditedLine where
  | plain (s : String)
  | marker (g : Option Grid)
deriving Repr, DecidableEq

/-- Reads extractor output as a perfectly parsed edited flat text (the
identity edit). -/
def toEdited : XLine → EditedLine
  | .plain s => .plain s
  | .marker g => .marker (some g)

/-- The pool of edited paragraph lines.  Per `src/unnamed/part_000`
lines 61–68: a line enters `paragraph_content` only when its strip is
non-empty and it is not a table marker line
(`if line_clean and not ("[TABELA_JSON]" in line …)`); the line is kept
unstripped. -/
def paragraphPool (ls : List EditedLine) : List String :=
  ls.filterMap (fun l =>
    match l with
    | .plain s => if strip s = "" then none else some s
    | .marker _ => none)

/-- The per-table correspondence entries, in marker order.  Modelled from
the spec: malformed grid JSON yields a `none` entry, aligned to the table
visited at the same ordinal position (spec §4.2). -/
def tableEntries (ls : List EditedLine) : List (Option Grid) :=
  ls.filterMap (fun l =>
    match l with
    | .plain _ => none
    | .marker og => some og)

/-! ## Format-preserving patch -/

/-- Single-run replacement: set the first run's text to the edited value
and remove every run after the first (`src/unnamed/part_000` lines 79–86:
`while len(paragraph.runs) > 1: p.remove(paragraph.runs[-1])`, then the
first run keeps its formatting and receives the new text). -/
def patchRun1 (runs : List Run) (newText : String) : List Run :=
  match runs with
  | [] => []
  | r :: _ => [{ r with text := newText }]

/-- Per-paragraph patch against its aligned slot.  Modelled from the spec
(§4.3) and `src/unnamed/part_000` lines 51–59: only a paragraph whose
original trimmed text is non-empty is processed; the edit applies when a
slot exists and differs from the (trimmed) original; a zero-run paragraph
is left untouched (`if paragraph.runs:`). -/
def patchPara (p : Paragraph) (slot : Option String) : Paragraph :=
  let ot := strip p.text
  if ot = "" then p
  else
    match slot with
    | none => p
    | some s =>
      if s = ot then p
      else
        match p.runs with
        | [] => p
        | _ :: _ => { p with runs := patchRun1 p.runs s }

/-- Per-cell-paragraph patch: the identical single-run replacement rule
(spec §4.3; `src/SOLUCAO_PRESERVACAO_FORMATACAO.md` lines 54–61:
`if paragraph.runs: first_run.text = new_cell_text`). -/
def patchCellPara (p : Paragraph) (newText : String) : Paragraph :=
  patchPara p (some newText)

/-- Per-cell patch: the rule is applied to the cell's first paragraph;
a cell with no paragraphs is untouched.  Modelled from the spec (§4.3). -/
def patchCell (c : Cell) (newText : String) : Cell :=
  match c.paragraphs with
  | [] => c
  | p :: ps => { c with paragraphs := patchCellPara p newText :: ps }

/-- Pointwise patch of a list against a (possibly shorter or longer)
list of edits: indices present in both sides are patched, extra elements
on the left are kept, extra edits on the right are ignored; nothing is
created or deleted.  Modelled from the spec (§4.3 bounds policy). -/
def zipPatch (f : α → β → α) : List α → List β → List α
  | [], _ => []
  | xs, [] => xs
  | x :: xs, y :: ys => f x y :: zipPatch f xs ys

/-- Per-row patch against its edited grid row. -/
def patchRow (r : Row) (grow : List String) : Row :=
  { r with cells := zipPatch patchCell r.cells grow }

/-- Per-table patch against its edited grid. -/
def patchTable (t : Table) (g : Grid) : Table :=
  { t with rows := zipPatch patchRow t.rows g }

/-- Per-table patch against its correspondence entry: a `none` entry
(malformed marker) leaves the table unedited. -/
def patchTableOpt (t : Table) (og : Option Grid) : Table :=
  match og with
  | none => t
  | some g => patchTable t g

/-- The patch walk over the top-level blocks.  Modelled from the spec
(§4.3) and `src/unnamed/part_000` lines 51–59: paragraphs with non-empty
original trimmed text consume successive pool slots
(`if original_text: if paragraph_index < len(paragraph_content): …`),
empty paragraphs consume none; tables consume successive grid entries. -/
def patchBlocks (blocks : List Block) (paras : List String) (pIdx : Nat)
    (grids : List (Option Grid)) (tIdx : Nat) : List Block :=
  match blocks with
  | [] => []
  | .para p :: bs =>
    if strip p.text = "" then
      .para p :: patchBlocks bs paras pIdx grids tIdx
    else
      .para (patchPara p (paras[pIdx]?)) ::
        patchBlocks bs paras (pIdx + 1) grids tIdx
  | .table t :: bs =>
    .table (patchTableOpt t ((grids[tIdx]?).bind id)) ::
      patchBlocks bs paras pIdx grids (tIdx + 1)

/-- Whole-document patch: blocks are walked from the start; everything
outside the blocks (`docRest`) is never visited. -/
def patchDoc (d : Document) (paras : List String)
    (grids : List (Option Grid)) : Document :=
  { d with blocks := patchBlocks d.blocks paras 0 grids 0 }

/-! ## Orchestrator

Modelled from the spec: the orchestrator service code is not under
`src/`; `src/SOLUCAO_PRESERVACAO_FORMATACAO.md` lines 119–127 fix the
fallback shape (`except Exception: return self.apply_text_edits(…)`).
The two `Except` arguments stand for the outcome of the attempted patch
and of the fallback rebuild; the returned `Nat` counts rebuild
attempts. -/
def applySelectiveEdits (patchRes rebuildRes : Except String Document) :
    Except String (Document × Bool) × Nat :=
  match patchRes with
  | .ok d => (.ok (d, false), 0)
  | .error _ =>
    match rebuildRes with
    | .ok d => (.ok (d, true), 1)
    | .error e => (.error e, 1)

/-! ## Frontend flat-text processing (`ContractViewer.tsx`)

The frontend works on the raw flat content string.  It is embedded here
over `List Char`, character for character.  The scanning functions of
the source are loops advancing an index; they are translated as
structurally recursive functions on an explicit fuel that a wrapper
instantiates with `length + 1` (every loop iteration of the source
consumes at least one character, so this fuel is never exhausted); this
keeps every definition kernel-evaluable. -/

/-- The opening table sentinel of the interchange format. -/
def openM : List Char := "[TABELA_JSON]".toList

/-- The closing table sentinel of the interchange format. -/
def closeM : List Char := "[/TABELA_JSON]".toList

/-- Index of the first occurrence of `pat` in `s`
(JS `String.indexOf`, `none` for `-1`). -/
def findSub (s pat : List Char) : Option Nat :=
  match s with
  | [] => if pat = [] then some 0 else none
  | _ :: rest =>
    if pat.isPrefixOf s then some 0 else (findSub rest pat).map (· + 1)

/-- JSON whitespace (the characters `JSON.parse` skips between tokens). -/
def wsChar (c : Char) : Bool :=
  c = ' ' || c = '\t' || c = '\n' || c = '\r'

/-- Drop leading JSON whitespace. -/
def skipWs (s : List Char) : List Char := s.dropWhile wsChar

/-! ### `JSON.parse` / `JSON.stringify`

The source rewrites marker bodies through `JSON.parse` and
`JSON.stringify`.  They are modelled exactly: the full JSON grammar
(null, booleans, numbers with JSON's strict syntax, strings, arrays,
objects with last-occurrence-wins duplicate keys replacing the value in
place), with JSON strings carried as lists of UTF-16 code units — the
representation JavaScript strings have — so that `\uXXXX` escapes, lone
surrogates and astral characters round-trip the way the engine's
built-ins treat them.  The one inexactness is number OUTPUT:
`JSON.stringify` formats the parsed double, while the model replays the
number's source lexeme (exact precisely for canonical lexemes); every
theorem about a rewritten region therefore either carries a
`numberFree` hypothesis or exhibits a canonical-lexeme instance. -/

/-- The value of a hexadecimal digit, `none` for other characters. -/
def hexVal (c : Char) : Option Nat :=
  if '0' ≤ c ∧ c ≤ '9' then some (c.toNat - '0'.toNat)
  else if 'a' ≤ c ∧ c ≤ 'f' then some (c.toNat - 'a'.toNat + 10)
  else if 'A' ≤ c ∧ c ≤ 'F' then some (c.toNat - 'A'.toNat + 10)
  else none

/-- Four hex digits of a `\uXXXX` escape. -/
def parseHex4 : List Char → Option (Nat × List Char)
  | c1 :: c2 :: c3 :: c4 :: rest =>
    match hexVal c1, hexVal c2, hexVal c3, hexVal c4 with
    | some a, some b, some c, some d =>
      some (((a * 16 + b) * 16 + c) * 16 + d, rest)
    | _, _, _, _ => none
  | _ => none

/-- A lowercase hex digit (as `JSON.stringify` emits in `\uXXXX`). -/
def hexDigit (n : Nat) : Char :=
  if n < 10 then Char.ofNat ('0'.toNat + n) else Char.ofNat ('a'.toNat + n - 10)

/-- The UTF-16 code units of a character. -/
def utf16units (c : Char) : List Nat :=
  if c.toNat < 0x10000 then [c.toNat]
  else
    [0xD800 + (c.toNat - 0x10000) / 0x400,
     0xDC00 + (c.toNat - 0x10000) % 0x400]

/-- The UTF-16 code units of a string (a JavaScript string value). -/
def utf16 (s : String) : List Nat :=
  (s.toList.map utf16units).flatten

/-- A JSON value as `JSON.parse` produces it.  Strings (and object keys)
are UTF-16 code-unit lists; a number carries its source lexeme. -/
inductive JValue where
  | null
  | bool (b : Bool)
  | num (lex : List Char)
  | str (units : List Nat)
  | arr (elems : List JValue)
  | obj (fields : List (List Nat × JValue))
deriving Repr

/-- Key insertion as JavaScript object assignment: an existing key keeps
its position and gets the new value (`JSON.parse` duplicate-key
behaviour), a new key is appended. -/
def insertField (fs : List (List Nat × JValue)) (k : List Nat)
    (v : JValue) : List (List Nat × JValue) :=
  match fs with
  | [] => [(k, v)]
  | (k0, v0) :: rest =>
    if k0 = k then (k0, v) :: rest else (k0, v0) :: insertField rest k v

/-- Body of a JSON string after its opening quote: the decoded code
units and the remainder after the closing quote.  Exactly `JSON.parse`'s
string grammar: raw characters below U+0020 are rejected, the escapes
are `\" \\ \/ \b \f \n \r \t \uXXXX`, and a `\uXXXX` pushes its code
unit as is (lone surrogates included); a raw astral character
contributes its surrogate pair. -/
def jparseStr : Nat → List Char → List Nat → Option (List Nat × List Char)
  | 0, _, _ => none
  | _ + 1, [], _ => none
  | fuel + 1, c :: rest, acc =>
    if c = '"' then some (acc.reverse, rest)
    else if c = '\\' then
      match rest with
      | [] => none
      | e :: rest2 =>
        if e = '"' then jparseStr fuel rest2 (0x22 :: acc)
        else if e = '\\' then jparseStr fuel rest2 (0x5C :: acc)
        else if e = '/' then jparseStr fuel rest2 (0x2F :: acc)
        else if e = 'b' then jparseStr fuel rest2 (0x08 :: acc)
        else if e = 'f' then jparseStr fuel rest2 (0x0C :: acc)
        else if e = 'n' then jparseStr fuel rest2 (0x0A :: acc)
        else if e = 'r' then jparseStr fuel rest2 (0x0D :: acc)
        else if e = 't' then jparseStr fuel rest2 (0x09 :: acc)
        else if e = 'u' then
          match parseHex4 rest2 with
          | some (n, rest3) => jparseStr fuel rest3 (n :: acc)
          | none => none
        else none
    else if c.toNat < 0x20 then none
    else jparseStr fuel rest ((utf16units c).reverse ++ acc)

/-- The exponent digits of a JSON number, after `e`/`E`. -/
def expDigits (lexSoFar eChar : List Char) (s : List Char) :
    Option (List Char × List Char) :=
  let (sgn, s1) :=
    match s with
    | '+' :: r => (['+'], r)
    | '-' :: r => (['-'], r)
    | _ => (([] : List Char), s)
  let dsp := s1.span Char.isDigit
  if dsp.1 = [] then none
  else some (lexSoFar ++ eChar ++ sgn ++ dsp.1, dsp.2)

/-- The optional exponent of a JSON number. -/
def expPart (lexSoFar : List Char) (s : List Char) :
    Option (List Char × List Char) :=
  match s with
  | 'e' :: r => expDigits lexSoFar ['e'] r
  | 'E' :: r => expDigits lexSoFar ['E'] r
  | _ => some (lexSoFar, s)

/-- A JSON number starting at its first character, returning its lexeme
and the remainder.  Exactly JSON's grammar: `-?(0|[1-9][0-9]*)`
optionally followed by `.[0-9]+` and `[eE][+-]?[0-9]+`; leading zeros,
a bare minus, `.5`, `1.` and `1e` are rejected, as `JSON.parse` does. -/
def jparseNum (s : List Char) : Option (List Char × List Char) :=
  let (neg, s1) :=
    match s with
    | '-' :: r => ((['-'] : List Char), r)
    | _ => (([] : List Char), s)
  match s1 with
  | [] => none
  | c :: cs =>
    if ¬ c.isDigit then none
    else if c = '0' && (match cs.head? with
        | some d => d.isDigit
        | none => false) then none
    else
      let (ip, s2) :=
        if c = '0' then ((['0'] : List Char), cs)
        else ((s1.span Char.isDigit).1, (s1.span Char.isDigit).2)
      match s2 with
      | '.' :: fs =>
        let fsp := fs.span Char.isDigit
        if fsp.1 = [] then none
        else expPart (neg ++ ip ++ '.' :: fsp.1) fsp.2
      | _ => expPart (neg ++ ip) s2

/-- A pending job of the JSON parser: parse one value, or continue an
array / object whose opening bracket (and for loops, separator) has been
consumed.  A single job type keeps the parser one structurally recursive
function on its fuel, so it evaluates inside the kernel. -/
inductive JJob where
  | val (s : List Char)
  | arrLoop (s : List Char) (acc : List JValue)
  | objLoop (s : List Char) (acc : List (List Nat × JValue))

/-- The JSON parser (`JSON.parse`'s grammar).  Fuel decreases once per
step; every two successive steps consume at least one input character,
so the fuel the wrapper supplies is never exhausted. -/
def jparseAux : Nat → JJob → Option (JValue × List Char)
  | 0, _ => none
  | fuel + 1, .val s =>
    match skipWs s with
    | [] => none
    | c :: rest =>
      if c = '"' then
        match jparseStr (rest.length + 1) rest [] with
        | some (units, r) => some (.str units, r)
        | none => none
      else if c = '[' then
        match skipWs rest with
        | ']' :: r2 => some (.arr [], r2)
        | _ => jparseAux fuel (.arrLoop rest [])
      else if c = '{' then
        match skipWs rest with
        | '}' :: r2 => some (.obj [], r2)
        | _ => jparseAux fuel (.objLoop rest [])
      else if c = 'n' then
        match rest with
        | 'u' :: 'l' :: 'l' :: r => some (.null, r)
        | _ => none
      else if c = 't' then
        match rest with
        | 'r' :: 'u' :: 'e' :: r => some (.bool true, r)
        | _ => none
      else if c = 'f' then
        match rest with
        | 'a' :: 'l' :: 's' :: 'e' :: r => some (.bool false, r)
        | _ => none
      else
        match jparseNum (c :: rest) with
        | some (lex, r) => some (.num lex, r)
        | none => none
  | fuel + 1, .arrLoop s acc =>
    match jparseAux fuel (.val s) with
    | none => none
    | some (v, r) =>
      match skipWs r with
      | ',' :: r2 => jparseAux fuel (.arrLoop r2 (v :: acc))
      | ']' :: r2 => some (.arr (v :: acc).reverse, r2)
      | _ => none
  | fuel + 1, .objLoop s acc =>
    match skipWs s with
    | '"' :: r =>
      match jparseStr (r.length + 1) r [] with
      | none => none
      | some (k, r2) =>
        match skipWs r2 with
        | ':' :: r3 =>
          match jparseAux fuel (.val r3) with
          | none => none
          | some (v, r4) =>
            match skipWs r4 with
            | ',' :: r5 => jparseAux fuel (.objLoop r5 (insertField acc k v))
            | '}' :: r5 => some (.obj (insertField acc k v), r5)
            | _ => none
        | _ => none
    | _ => none

/-- `JSON.parse` of a marker body: one value, surrounded by optional
whitespace, consuming the whole input; anything else fails (the `catch`
paths of the source). -/
def jparse (s : List Char) : Option JValue :=
  match jparseAux (2 * s.length + 4) (.val s) with
  | some (v, rest) => if skipWs rest = [] then some v else none
  | none => none

/-- `JSON.stringify`'s escape of one BMP code unit that is a scalar
value: `\" \\`, the short control escapes `\b \t \n \f \r`, `\u00xx` for
the other characters below U+0020, everything else literal. -/
def escCharJ (c : Char) : List Char :=
  if c = '"' then ['\\', '"']
  else if c = '\\' then ['\\', '\\']
  else if c = '\x08' then ['\\', 'b']
  else if c = '\x0c' then ['\\', 'f']
  else if c = '\n' then ['\\', 'n']
  else if c = '\r' then ['\\', 'r']
  else if c = '\t' then ['\\', 't']
  else if c.toNat < 0x20 then
    ['\\', 'u', '0', '0', hexDigit (c.toNat / 16), hexDigit (c.toNat % 16)]
  else [c]

/-- A `\uXXXX` escape for a code unit (how well-formed `JSON.stringify`
emits a lone surrogate). -/
def escU (u : Nat) : List Char :=
  ['\\', 'u', hexDigit (u / 4096 % 16), hexDigit (u / 256 % 16),
   hexDigit (u / 16 % 16), hexDigit (u % 16)]

/-- `JSON.stringify` of a string's code units: a surrogate pair becomes
its (raw, unescaped) astral character, a lone surrogate becomes a
`\uXXXX` escape, and scalar units go through `escCharJ`. -/
def serUnits : List Nat → List Char
  | [] => []
  | [u] =>
    if u < 0xD800 ∨ (0xDFFF < u ∧ u < 0x10000) then escCharJ (Char.ofNat u)
    else escU u
  | u :: u2 :: rest =>
    if u < 0xD800 ∨ (0xDFFF < u ∧ u < 0x10000) then
      escCharJ (Char.ofNat u) ++ serUnits (u2 :: rest)
    else if u ≤ 0xDBFF ∧ 0xDC00 ≤ u2 ∧ u2 ≤ 0xDFFF then
      Char.ofNat (0x10000 + (u - 0xD800) * 0x400 + (u2 - 0xDC00)) ::
        serUnits rest
    else escU u ++ serUnits (u2 :: rest)

mutual

/-- `JSON.stringify` with no spacing argument: compact output, no
whitespace.  A number replays its source lexeme (see the section
comment). -/
def jserialize : JValue → List Char
  | .null => "null".toList
  | .bool true => "true".toList
  | .bool false => "false".toList
  | .num lex => lex
  | .str units => '"' :: serUnits units ++ ['"']
  | .arr vs => '[' :: jserializeElems vs ++ [']']
  | .obj fs => '{' :: jserializeFields fs ++ ['}']

/-- Comma-separated serialization of array elements. -/
def jserializeElems : List JValue → List Char
  | [] => []
  | [v] => jserialize v
  | v :: v2 :: vs => jserialize v ++ ',' :: jserializeElems (v2 :: vs)

/-- Comma-separated serialization of object fields. -/
def jserializeFields : List (List Nat × JValue) → List Char
  | [] => []
  | [(k, v)] => '"' :: serUnits k ++ '"' :: ':' :: jserialize v
  | (k, v) :: f2 :: fs =>
    '"' :: serUnits k ++ '"' :: ':' :: jserialize v ++
      ',' :: jserializeFields (f2 :: fs)

end

mutual

/-- No JSON number occurs in the value: on this fragment the
serialization model is exact (double formatting never enters). -/
def numberFree : JValue → Bool
  | .null => true
  | .bool _ => true
  | .num _ => false
  | .str _ => true
  | .arr vs => numberFreeElems vs
  | .obj fs => numberFreeFields fs

/-- `numberFree` over array elements. -/
def numberFreeElems : List JValue → Bool
  | [] => true
  | v :: vs => numberFree v && numberFreeElems vs

/-- `numberFree` over object fields. -/
def numberFreeFields : List (List Nat × JValue) → Bool
  | [] => true
  | (_, v) :: fs => numberFree v && numberFreeFields fs

end

/-- A `string[][]` grid as the JSON value JavaScript holds it. -/
def gridJ (g : Grid) : JValue :=
  .arr (g.map (fun row => .arr (row.map (fun s => .str (utf16 s)))))

/-- `editableTables[tableIndex] || originalData`: the pending edited
grid when the slot holds one (a grid, even empty, is truthy), otherwise
the region's parsed value. -/
def editedValue (grids : List (Option Grid)) (tIdx : Nat)
    (orig : JValue) : JValue :=
  match (grids[tIdx]?).bind id with
  | some g => gridJ g
  | none => orig

/-- The characters the JavaScript regex dot does not match: the
LineTerminator set `\n`, `\r`, U+2028, U+2029. -/
def jsLineTerm (c : Char) : Bool :=
  c = '\n' || c = '\r' || c.toNat = 0x2028 || c.toNat = 0x2029

/-- The regex rewrite of `updateEditedContent`
(`ContractViewer.tsx` lines 115–133):
`content.replace(/\[TABELA_JSON\](.*?)\[\/TABELA_JSON\]/g, cb)` where the
callback re-serializes `editableTables[tableIndex] || originalData` and
advances `tableIndex` only on parse success (the `catch` returns the
match verbatim without advancing).  JS regex semantics embedded: a match
attempt at an opening sentinel needs the closing sentinel with no line
terminator in between (the dot of `(.*?)` crosses none of `\n`, `\r`,
U+2028, U+2029); lazy matching pairs each opening sentinel with the
first closing sentinel after it; on a failed attempt the engine advances
to the next opening sentinel. -/
def replaceTablesAux (grids : List (Option Grid)) :
    Nat → Nat → List Char → List Char
  | 0, _, s => s
  | fuel + 1, tIdx, s =>
    match findSub s openM with
    | none => s
    | some i =>
      let rest := s.drop (i + openM.length)
      match findSub rest closeM with
      | none => s
      | some j =>
        let body := rest.take j
        if body.any jsLineTerm then
          s.take (i + 1) ++ replaceTablesAux grids fuel tIdx (s.drop (i + 1))
        else
          match jparse body with
          | none =>
            s.take (i + openM.length) ++ body ++ closeM ++
              replaceTablesAux grids fuel tIdx (rest.drop (j + closeM.length))
          | some orig =>
            s.take i ++ openM ++ jserialize (editedValue grids tIdx orig) ++
              closeM ++
              replaceTablesAux grids fuel (tIdx + 1)
                (rest.drop (j + closeM.length))

/-- The rewrite loop from table ordinal `tIdx` onwards, with the fuel a
run of the source needs. -/
def updateEditedFrom (grids : List (Option Grid)) (tIdx : Nat)
    (s : List Char) : List Char :=
  replaceTablesAux grids (s.length + 1) tIdx s

/-- A piece produced by the editable-content scanner: a free text part
or an editable table (the parsed value, cast to a grid by the source's
no-op `as string[][]`) with its `tableIndex`. -/
inductive EPart where
  | text (s : List Char)
  | table (v : JValue) (idx : Nat)
deriving Repr

/-- The scanning loop of `processEditableContent`
(`ContractViewer.tsx` lines 246–339): walk the content; text up to each
opening sentinel becomes a text part; a sentinel with no closing sentinel
after it appends the remainder to the running text and stops; a body
whose JSON parses becomes a table part and `tableIndex` advances; a
region whose JSON fails to parse is appended verbatim to the running
text (`catch`) and `tableIndex` does not advance. -/
def scanEditableAux : Nat → List Char → List Char → Nat → List EPart
  | 0, cur, s, _ => if cur ++ s = [] then [] else [.text (cur ++ s)]
  | fuel + 1, cur, s, tIdx =>
    match findSub s openM with
    | none => if cur ++ s = [] then [] else [.text (cur ++ s)]
    | some i =>
      let cur1 := cur ++ s.take i
      let pushed := if cur1 = [] then ([] : List EPart) else [.text cur1]
      match findSub (s.drop i) closeM with
      | none => pushed ++ [.text (s.drop i)]
      | some j =>
        let body := ((s.drop i).take j).drop openM.length
        match jparse body with
        | some v =>
          pushed ++ .table v tIdx ::
            scanEditableAux fuel [] (s.drop (i + j + closeM.length)) (tIdx + 1)
        | none =>
          pushed ++ scanEditableAux fuel
            ((s.drop i).take (j + closeM.length))
            (s.drop (i + j + closeM.length)) tIdx

/-- `processEditableContent` as an `Except`: no code path of the source
escapes with an exception (its `JSON.parse` is inside `try/catch`, and an
unterminated sentinel merely ends the loop), so the translation always
returns `.ok`. -/
def processEditableContentE (content : List Char) :
    Except String (List EPart) :=
  .ok (scanEditableAux (content.length + 1) [] content 0)

/-- The claim-side predicate, in the claim's own words: the content holds
an opening table sentinel with no matching closing sentinel after it
(markers are paired the way both scanners of the source pair them: each
opening sentinel with the first closing sentinel from its position). -/
def hasUnterminatedMarker : Nat → List Char → Bool
  | 0, _ => false
  | fuel + 1, s =>
    match findSub s openM with
    | none => false
    | some i =>
      match findSub (s.drop i) closeM with
      | none => true
      | some j => hasUnterminatedMarker fuel (s.drop (i + j + closeM.length))

/-- Whether a flat content string contains an unterminated table marker. -/
def unterminated (content : List Char) : Bool :=
  hasUnterminatedMarker (content.length + 1) content

/-- JS nested assignment `grid[r][c] = v` on an in-range cell
(`updateCell`'s mutation, `ContractViewer.tsx` line 57). -/
def setGridCell (g : Grid) (r c : Nat) (v : String) : Grid :=
  g.set r (((g[r]?).getD []).set c v)

/-- `updateCell` (`ContractViewer.tsx` lines 43–62): pad `editableTables`
with `null` up to `tableIndex`, copy the rendered `tableData` into the
slot when it is still `null`, then assign the cell. -/
def updateCell (tables : List (Option Grid)) (tableData : Grid)
    (tableIndex rowIndex cellIndex : Nat) (v : String) :
    List (Option Grid) :=
  let nt := tables ++ List.replicate (tableIndex + 1 - tables.length) none
  let cur :=
    match nt[tableIndex]? with
    | some (some g) => g
    | _ => tableData
  nt.set tableIndex (some (setGridCell cur rowIndex cellIndex v))

/-! ## Alignment helpers over block lists -/

/-- The paragraphs of a block list, in order. -/
def parasOfBlocks (bs : List Block) : List Paragraph :=
  bs.filterMap (fun b =>
    match b with
    | .para p => some p
    | .table _ => none)

/-- The plain lines of a serialized content, in order. -/
def plainLines (ls : List XLine) : List String :=
  ls.filterMap (fun l =>
    match l with
    | .plain s => some s
    | .marker _ => none)

/-- The trimmed texts of the non-empty paragraphs of a block list: the
slots the patch walk consumes, in order. -/
def poolOf (bs : List Block) : List String :=
  bs.filterMap (fun b =>
    match b with
    | .para p => if strip p.text = "" then none else some (strip p.text)
    | .table _ => none)

/-- The identity grid entries of a block list. -/
def gridsOf (bs : List Block) : List (Option Grid) :=
  bs.filterMap (fun b =>
    match b with
    | .para _ => none
    | .table t => some (some (gridOf t)))

/-! ### Undersupply -/

/-- The paragraph sitting at block position `j`, if any. -/
def paraAt (bs : List Block) (j : Nat) : Option Paragraph :=
  match bs[j]? with
  | some (.para p) => some p
  | _ => none

/-- How many pool slots the patch walk consumes strictly before block
position `j`: one per non-empty paragraph. -/
def slotBefore : List Block → Nat → Nat
  | _, 0 => 0
  | [], _ + 1 => 0
  | .para p :: bs, j + 1 =>
    (if strip p.text = "" then 0 else 1) + slotBefore bs j
  | .table _ :: bs, j + 1 => slotBefore bs j

/-! ## Concrete instances

The regression document of spec §8 (`["Intro", "", "Contractor: X"]` plus
one 2×2 table) and a 3×3 table, with pairwise distinct opaque formatting
payloads so that any unintended mutation would be visible. -/

/-- A one-run paragraph with distinct run/paragraph payloads. -/
def mkPara (s : String) (k : Nat) : Paragraph := ⟨[⟨s, k⟩], k + 1⟩

/-- A one-paragraph cell with distinct payloads. -/
def mkCell (s : String) (k : Nat) : Cell := ⟨[⟨[⟨s, k⟩], k + 1⟩], k + 2⟩

/-- The three paragraphs of the historical drift regression. -/
def doc3 : Document :=
  ⟨[.para (mkPara "Intro" 0), .para (mkPara "" 10),
    .para (mkPara "Contractor: X" 20)], 5⟩

/-- The 2×2 table of the spec §8 scenario. -/
def exTable : Table :=
  ⟨[⟨[mkCell "H1" 200, mkCell "H2" 210], 220⟩,
    ⟨[mkCell "a" 230, mkCell "b" 240], 221⟩], 222⟩

/-- The full spec §8 scenario document. -/
def exDoc : Document :=
  ⟨[.para (mkPara "Intro" 0), .para (mkPara "" 10),
    .para (mkPara "Contractor: X" 20), .table exTable], 999⟩

/-- The spec §8 edited flat text, parsed into lines. -/
def exEdited : List EditedLine :=
  [.plain "Intro edited", .plain "", .plain "Contractor: Y",
   .marker (some [["H1", "H2"], ["a", "c"]])]

/-- The expected result of the spec §8 scenario: paragraphs 0 and 2
re-texted, paragraph 1 and cells [0][0], [0][1], [1][0] untouched,
cell [1][1] re-texted to `"c"`. -/
def exDocPatched : Document :=
  ⟨[.para ⟨[⟨"Intro edited", 0⟩], 1⟩, .para (mkPara "" 10),
    .para ⟨[⟨"Contractor: Y", 20⟩], 21⟩,
    .table ⟨[⟨[mkCell "H1" 200, mkCell "H2" 210], 220⟩,
             ⟨[mkCell "a" 230, ⟨[⟨[⟨"c", 240⟩], 241⟩], 242⟩], 221⟩],
            222⟩], 999⟩

/-- A 3×3 table with nine pairwise distinct cells and payloads. -/
def table3 : Table :=
  ⟨[⟨[mkCell "a00" 300, mkCell "a01" 310, mkCell "a02" 320], 400⟩,
    ⟨[mkCell "a10" 330, mkCell "a11" 340, mkCell "a12" 350], 401⟩,
    ⟨[mkCell "a20" 360, mkCell "a21" 370, mkCell "a22" 380], 402⟩], 403⟩

/-- The grid of `table3` with cell [2][1] edited to `"NEW"`. -/
def grid3Edit : Grid :=
  [["a00", "a01", "a02"], ["a10", "a11", "a12"], ["a20", "NEW", "a22"]]

/-- `table3` with exactly cell [2][1] re-texted: the other eight cells,
and every formatting payload, unchanged. -/
def table3Patched : Table :=
  ⟨[⟨[mkCell "a00" 300, mkCell "a01" 310, mkCell "a02" 320], 400⟩,
    ⟨[mkCell "a10" 330, mkCell "a11" 340, mkCell "a12" 350], 401⟩,
    ⟨[mkCell "a20" 360, ⟨[⟨[⟨"NEW", 370⟩], 371⟩], 372⟩,
      mkCell "a22" 380], 402⟩], 403⟩

/-- Cell lookup in a table. -/
def cellAt (t : Table) (i j : Nat) : Option Cell :=
  (t.rows[i]?).bind (fun r => r.cells[j]?)

/-- Cell lookup in a grid. -/
def gridCellAt (g : Grid) (i j : Nat) : Option String :=
  (g[i]?).bind (fun row => row[j]?)

/-! ## Helper lemmas -/

theorem getElem?_append_cons (xs : List α) (y : α) (ys : List α) :
    (xs ++ y :: ys)[xs.length]? = some y := by
  induction xs with
  | nil => simp
  | cons x xs ih => simpa using ih

theorem patchPara_none (p : Paragraph) : patchPara p none = p := by
  unfold patchPara
  by_cases h : strip p.text = "" <;> simp [h]

theorem patchPara_self (p : Paragraph) :
    patchPara p (some (strip p.text)) = p := by
  unfold patchPara
  by_cases h : strip p.text = "" <;> simp [h]

theorem patchCell_self (c : Cell) : patchCell c (cellText c) = c := by
  unfold patchCell cellText
  match c with
  | ⟨[], f⟩ => rfl
  | ⟨p :: ps, f⟩ => simp [patchCellPara, patchPara_self]

theorem zipPatch_getElem? (f : α → β → α) :
    ∀ (xs : List α) (ys : List β) (i : Nat),
      (zipPatch f xs ys)[i]? =
        match xs[i]?, ys[i]? with
        | some x, some y => some (f x y)
        | some x, none => some x
        | none, _ => none
  | [], ys, i => by cases ys <;> simp [zipPatch]
  | x :: xs, [], i => by
    cases i with
    | zero => simp [zipPatch]
    | succ n =>
      simp only [zipPatch, List.getElem?_cons_succ, List.getElem?_nil]
      cases xs[n]? <;> rfl
  | x :: xs, y :: ys, 0 => by simp [zipPatch]
  | x :: xs, y :: ys, i + 1 => by
    simpa [zipPatch] using zipPatch_getElem? f xs ys i

theorem zipPatch_length (f : α → β → α) :
    ∀ (xs : List α) (ys : List β), (zipPatch f xs ys).length = xs.length
  | [], ys => by cases ys <;> rfl
  | x :: xs, [] => rfl
  | x :: xs, y :: ys => by simp [zipPatch, zipPatch_length f xs ys]

theorem zipPatch_self (f : α → β → α) (g : α → β)
    (hf : ∀ x, f x (g x) = x) :
    ∀ (xs : List α), zipPatch f xs (xs.map g) = xs
  | [] => rfl
  | x :: xs => by simp [zipPatch, hf, zipPatch_self f g hf xs]

theorem patchRow_self (r : Row) : patchRow r (r.cells.map cellText) = r := by
  unfold patchRow
  rw [zipPatch_self patchCell cellText patchCell_self]

theorem patchTable_gridOf (t : Table) : patchTable t (gridOf t) = t := by
  unfold patchTable gridOf
  rw [zipPatch_self patchRow (fun r => r.cells.map cellText) patchRow_self]

theorem paragraphPool_plain (s : String) (ls : List EditedLine) :
    paragraphPool (.plain s :: ls) =
      if strip s = "" then paragraphPool ls else s :: paragraphPool ls := by
  by_cases h : strip s = "" <;> simp [paragraphPool, h]

theorem paragraphPool_marker (og : Option Grid) (ls : List EditedLine) :
    paragraphPool (.marker og :: ls) = paragraphPool ls := by
  simp [paragraphPool]

theorem tableEntries_plain (s : String) (ls : List EditedLine) :
    tableEntries (.plain s :: ls) = tableEntries ls := by
  simp [tableEntries]

theorem tableEntries_marker (og : Option Grid) (ls : List EditedLine) :
    tableEntries (.marker og :: ls) = og :: tableEntries ls := by
  simp [tableEntries]

theorem poolOf_para (p : Paragraph) (bs : List Block) :
    poolOf (.para p :: bs) =
      if strip p.text = "" then poolOf bs else strip p.text :: poolOf bs := by
  by_cases h : strip p.text = "" <;> simp [poolOf, h]

theorem poolOf_table (t : Table) (bs : List Block) :
    poolOf (.table t :: bs) = poolOf bs := by
  simp [poolOf]

theorem gridsOf_para (p : Paragraph) (bs : List Block) :
    gridsOf (.para p :: bs) = gridsOf bs := by
  simp [gridsOf]

theorem gridsOf_table (t : Table) (bs : List Block) :
    gridsOf (.table t :: bs) = some (gridOf t) :: gridsOf bs := by
  simp [gridsOf]

/-! ### `strip` properties -/

theorem forall_mem_dropWhile_iff (p : Char → Bool) (l : List Char) :
    (∀ c ∈ l.dropWhile p, p c) ↔ (∀ c ∈ l, p c) := by
  constructor
  · intro h c hc
    rcases (List.mem_append.1
      (by rw [List.takeWhile_append_dropWhile p l]; exact hc :
        c ∈ l.takeWhile p ++ l.dropWhile p)) with h1 | h2
    · exact List.mem_takeWhile_imp h1
    · exact h c h2
  · intro h c hc
    exact h c ((l.dropWhile_sublist p).subset hc)

theorem strip_toList (s : String) :
    (strip s).toList =
      ((s.toList.dropWhile stripChar).reverse.dropWhile stripChar).reverse :=
  rfl

theorem strip_empty_iff (s : String) :
    strip s = "" ↔ ∀ c ∈ s.toList, stripChar c := by
  unfold strip
  constructor
  · intro h
    have hl :
        ((s.toList.dropWhile stripChar).reverse.dropWhile stripChar).reverse
          = [] := congrArg String.toList h
    rw [List.reverse_eq_nil_iff, List.dropWhile_eq_nil_iff] at hl
    have h1 : ∀ c ∈ s.toList.dropWhile stripChar, stripChar c := by
      intro c hc
      exact hl c (List.mem_reverse.2 hc)
    exact (forall_mem_dropWhile_iff stripChar s.toList).1 h1
  · intro h
    have h1 : ∀ c ∈ (s.toList.dropWhile stripChar).reverse, stripChar c := by
      intro c hc
      exact h c ((s.toList.dropWhile_sublist stripChar).subset
        (List.mem_reverse.1 hc))
    have : (s.toList.dropWhile stripChar).reverse.dropWhile stripChar = [] :=
      List.dropWhile_eq_nil_iff.2 h1
    show String.mk _ = ""
    rw [this]
    rfl

theorem mem_strip_subset {c : Char} {s : String}
    (h : c ∈ (strip s).toList) : c ∈ s.toList := by
  rw [strip_toList] at h
  exact (s.toList.dropWhile_sublist stripChar).subset
    (List.mem_reverse.1
      (((s.toList.dropWhile stripChar).reverse.dropWhile_sublist
          stripChar).subset (List.mem_reverse.1 h)))

theorem strip_allWs_iff (s : String) :
    (∀ c ∈ (strip s).toList, stripChar c) ↔ (∀ c ∈ s.toList, stripChar c) := by
  constructor
  · intro h c hc
    -- s.toList = takeWhile ++ dropWhile; dropWhile's reverse likewise splits
    rcases (List.mem_append.1
      (by rw [List.takeWhile_append_dropWhile stripChar s.toList]; exact hc :
        c ∈ s.toList.takeWhile stripChar ++ s.toList.dropWhile stripChar))
      with h1 | h2
    · exact List.mem_takeWhile_imp h1
    · have h3 : c ∈ (s.toList.dropWhile stripChar).reverse :=
        List.mem_reverse.2 h2
      rcases (List.mem_append.1
        (by
          rw [List.takeWhile_append_dropWhile stripChar
            (s.toList.dropWhile stripChar).reverse]
          exact h3 :
          c ∈ (s.toList.dropWhile stripChar).reverse.takeWhile stripChar ++
            (s.toList.dropWhile stripChar).reverse.dropWhile stripChar))
        with h4 | h5
      · exact List.mem_takeWhile_imp h4
      · exact h c (by rw [strip_toList]; exact List.mem_reverse.2 h5)
  · intro h c hc
    exact h c (mem_strip_subset hc)

theorem strip_strip_empty_iff (s : String) :
    (strip (strip s) = "") ↔ (strip s = "") :=
  (strip_empty_iff (strip s)).trans
    ((strip_allWs_iff s).trans (strip_empty_iff s).symm)

/-! ### Extraction feeds the pools -/

theorem plainLines_extract (bs : List Block) :
    (plainLines (bs.map extractLine)).length = (parasOfBlocks bs).length := by
  induction bs with
  | nil => rfl
  | cons b bs ih =>
    cases b <;> simp only [List.map_cons, extractLine, plainLines,
      parasOfBlocks, List.filterMap_cons] <;>
      simpa [plainLines, parasOfBlocks] using ih

theorem paragraphPool_extract (bs : List Block) :
    paragraphPool ((bs.map extractLine).map toEdited) = poolOf bs := by
  induction bs with
  | nil => rfl
  | cons b bs ih =>
    cases b with
    | para p =>
      simp only [List.map_cons, extractLine, toEdited, paragraphPool_plain,
        poolOf_para]
      by_cases h : strip p.text = ""
      · have h2 : strip (strip p.text) = "" := (strip_strip_empty_iff p.text).2 h
        rw [if_pos h2, if_pos h, ih]
      · have h2 : ¬ strip (strip p.text) = "" := fun hh =>
          h ((strip_strip_empty_iff p.text).1 hh)
        rw [if_neg h2, if_neg h, ih]
    | table t =>
      simp only [List.map_cons, extractLine, toEdited, paragraphPool_marker,
        poolOf_table]
      exact ih

theorem tableEntries_extract (bs : List Block) :
    tableEntries ((bs.map extractLine).map toEdited) = gridsOf bs := by
  induction bs with
  | nil => rfl
  | cons b bs ih =>
    cases b with
    | para p =>
      simp only [List.map_cons, extractLine, toEdited, tableEntries_plain,
        gridsOf_para]
      exact ih
    | table t =>
      simp only [List.map_cons, extractLine, toEdited, tableEntries_marker,
        gridsOf_table]
      rw [ih]

/-- The patch walk applied to a document's own extraction output leaves
every block unchanged, at any starting offset into the pools. -/
theorem patchBlocks_pool : ∀ (bs : List Block) (pref : List String)
    (gpref : List (Option Grid)),
    patchBlocks bs (pref ++ poolOf bs) pref.length
      (gpref ++ gridsOf bs) gpref.length = bs
  | [], _, _ => rfl
  | .para p :: bs, pref, gpref => by
    rw [poolOf_para, gridsOf_para]
    by_cases h : strip p.text = ""
    · rw [if_pos h]
      simp only [patchBlocks]
      rw [if_pos h, patchBlocks_pool bs pref gpref]
    · rw [if_neg h]
      simp only [patchBlocks]
      rw [if_neg h, getElem?_append_cons, patchPara_self]
      have hre : pref ++ strip p.text :: poolOf bs =
          (pref ++ [strip p.text]) ++ poolOf bs := by simp
      rw [hre]
      have hlen : pref.length + 1 = (pref ++ [strip p.text]).length := by simp
      rw [hlen, patchBlocks_pool bs (pref ++ [strip p.text]) gpref]
  | .table t :: bs, pref, gpref => by
    rw [poolOf_table, gridsOf_table]
    simp only [patchBlocks]
    rw [getElem?_append_cons]
    have hopt : Option.bind (some (some (gridOf t))) id = some (gridOf t) := rfl
    rw [hopt]
    have hpt : patchTableOpt t (some (gridOf t)) = t := by
      simp [patchTableOpt, patchTable_gridOf]
    rw [hpt]
    have hre : gpref ++ some (gridOf t) :: gridsOf bs =
        (gpref ++ [some (gridOf t)]) ++ gridsOf bs := by simp
    rw [hre]
    have hlen : gpref.length + 1 = (gpref ++ [some (gridOf t)]).length := by
      simp
    rw [hlen, patchBlocks_pool bs pref (gpref ++ [some (gridOf t)])]

/-- When the pool is exhausted before a paragraph's slot, that paragraph
comes out of the patch walk unchanged. -/
theorem patchBlocks_undersupply :
    ∀ (bs : List Block) (paras : List String) (pIdx : Nat)
      (grids : List (Option Grid)) (tIdx : Nat) (j : Nat) (p : Paragraph),
      paraAt bs j = some p →
      paras.length ≤ pIdx + slotBefore bs j →
      paraAt (patchBlocks bs paras pIdx grids tIdx) j = some p
  | [], _, _, _, _, j, p => by intro h _; simp [paraAt] at h
  | .para q :: bs, paras, pIdx, grids, tIdx, 0, p => by
    intro h hle
    simp only [paraAt, List.getElem?_cons_zero] at h
    have hq : q = p := by cases h; rfl
    subst hq
    simp only [slotBefore, Nat.add_zero] at hle
    simp only [patchBlocks]
    by_cases hq0 : strip q.text = ""
    · rw [if_pos hq0]; simp [paraAt]
    · rw [if_neg hq0]
      have hnone : paras[pIdx]? = none := List.getElem?_eq_none hle
      rw [hnone, patchPara_none]
      simp [paraAt]
  | .para q :: bs, paras, pIdx, grids, tIdx, j + 1, p => by
    intro h hle
    simp only [paraAt, List.getElem?_cons_succ] at h
    simp only [slotBefore] at hle
    simp only [patchBlocks]
    by_cases hq0 : strip q.text = ""
    · rw [if_pos hq0]
      simp only [paraAt, List.getElem?_cons_succ]
      have := patchBlocks_undersupply bs paras pIdx grids tIdx j p h
        (by rw [if_pos hq0] at hle; omega)
      simpa [paraAt] using this
    · rw [if_neg hq0]
      simp only [paraAt, List.getElem?_cons_succ]
      have := patchBlocks_undersupply bs paras (pIdx + 1) grids tIdx j p h
        (by rw [if_neg hq0] at hle; omega)
      simpa [paraAt] using this
  | .table t :: bs, paras, pIdx, grids, tIdx, 0, p => by
    intro h _
    simp [paraAt] at h
  | .table t :: bs, paras, pIdx, grids, tIdx, j + 1, p => by
    intro h hle
    simp only [paraAt, List.getElem?_cons_succ] at h
    simp only [slotBefore] at hle
    simp only [patchBlocks, paraAt, List.getElem?_cons_succ]
    have := patchBlocks_undersupply bs paras pIdx grids (tIdx + 1) j p h hle
    simpa [paraAt] using this

/-! ## Frontend scanning lemmas -/

theorem isPrefixOf_length_le [BEq α] :
    ∀ (p s : List α), p.isPrefixOf s = true → p.length ≤ s.length
  | [], s, _ => Nat.zero_le _
  | a :: as, [], h => by
    have hf : ((a :: as).isPrefixOf ([] : List α)) = false := rfl
    rw [hf] at h
    cases h
  | a :: as, b :: bs, h => by
    simp only [List.isPrefixOf, Bool.and_eq_true] at h
    simpa using isPrefixOf_length_le as bs h.2

theorem findSub_bound :
    ∀ (s pat : List Char) (i : Nat),
      findSub s pat = some i → i + pat.length ≤ s.length
  | [], pat, i, h => by
    simp only [findSub] at h
    by_cases hp : pat = []
    · rw [if_pos hp] at h
      cases h
      simp [hp]
    · rw [if_neg hp] at h
      cases h
  | c :: rest, pat, i, h => by
    simp only [findSub] at h
    by_cases hp : pat.isPrefixOf (c :: rest) = true
    · rw [if_pos hp] at h
      cases h
      simpa using isPrefixOf_length_le pat (c :: rest) hp
    · rw [if_neg hp] at h
      cases hi : findSub rest pat with
      | none => rw [hi] at h; cases h
      | some i0 =>
        rw [hi] at h
        have hb := findSub_bound rest pat i0 hi
        have h2 : i0 + 1 = i := Option.some.inj h
        simp only [List.length_cons]
        omega

theorem openM_length : openM.length = 13 := rfl

theorem closeM_length : closeM.length = 14 := rfl

theorem replaceTablesAux_fuel (grids : List (Option Grid)) :
    ∀ (f₁ f₂ tIdx : Nat) (s : List Char), s.length < f₁ → s.length < f₂ →
      replaceTablesAux grids f₁ tIdx s = replaceTablesAux grids f₂ tIdx s
  | 0, _, _, s, h1, _ => absurd h1 (by omega)
  | _ + 1, 0, _, s, _, h2 => absurd h2 (by omega)
  | f₁ + 1, f₂ + 1, tIdx, s, h1, h2 => by
    cases ho : findSub s openM with
    | none => simp only [replaceTablesAux, ho]
    | some i =>
      have hbo := findSub_bound s openM i ho
      rw [openM_length] at hbo
      cases hc : findSub (s.drop (i + openM.length)) closeM with
      | none => simp only [replaceTablesAux, ho, hc]
      | some j =>
        have hbc := findSub_bound _ closeM j hc
        rw [closeM_length, List.length_drop] at hbc
        simp only [replaceTablesAux, ho, hc]
        by_cases hnl : ((s.drop (i + openM.length)).take j).any jsLineTerm
        · rw [if_pos hnl, if_pos hnl]
          rw [replaceTablesAux_fuel grids f₁ f₂ tIdx (s.drop (i + 1))
            (by rw [List.length_drop]; omega)
            (by rw [List.length_drop]; omega)]
        · rw [if_neg hnl, if_neg hnl]
          rw [replaceTablesAux_fuel grids f₁ f₂ tIdx
              ((s.drop (i + openM.length)).drop (j + closeM.length))
              (by simp only [List.length_drop, openM_length, closeM_length]
                  omega)
              (by simp only [List.length_drop, openM_length, closeM_length]
                  omega),
            replaceTablesAux_fuel grids f₁ f₂ (tIdx + 1)
              ((s.drop (i + openM.length)).drop (j + closeM.length))
              (by simp only [List.length_drop, openM_length, closeM_length]
                  omega)
              (by simp only [List.length_drop, openM_length, closeM_length]
                  omega)]

/-- A marker region whose grid JSON fails to parse is reproduced verbatim
by the rewrite: the `catch` returns the match unchanged and does not
advance `tableIndex`; scanning continues after the region. -/
theorem updateEditedFrom_malformed (grids : List (Option Grid)) (t : Nat)
    (pre body suf : List Char)
    (h1 : findSub (pre ++ openM ++ body ++ closeM ++ suf) openM =
      some pre.length)
    (h2 : findSub (body ++ closeM ++ suf) closeM = some body.length)
    (hnl : body.any jsLineTerm = false)
    (hp : jparse body = none) :
    updateEditedFrom grids t (pre ++ openM ++ body ++ closeM ++ suf) =
      pre ++ openM ++ body ++ closeM ++ updateEditedFrom grids t suf := by
  have hL : (pre ++ openM ++ body ++ closeM ++ suf).length =
      pre.length + 13 + body.length + 14 + suf.length := by
    simp only [List.length_append, openM_length, closeM_length]
  have hdrop : (pre ++ openM ++ body ++ closeM ++ suf).drop
      (pre.length + openM.length) = body ++ closeM ++ suf := by
    have hsplit : pre ++ openM ++ body ++ closeM ++ suf =
        (pre ++ openM) ++ (body ++ closeM ++ suf) := by simp
    rw [hsplit, List.drop_left' (by simp)]
  have htake : (body ++ closeM ++ suf).take body.length = body := by
    have hsplit2 : body ++ closeM ++ suf = body ++ (closeM ++ suf) := by simp
    rw [hsplit2, List.take_left' rfl]
  have htake2 : (pre ++ openM ++ body ++ closeM ++ suf).take
      (pre.length + openM.length) = pre ++ openM := by
    have hsplit : pre ++ openM ++ body ++ closeM ++ suf =
        (pre ++ openM) ++ (body ++ closeM ++ suf) := by simp
    rw [hsplit, List.take_left' (by simp)]
  have hdrop2 : (body ++ closeM ++ suf).drop
      (body.length + closeM.length) = suf := by
    have hsplit2 : body ++ closeM ++ suf = (body ++ closeM) ++ suf := by simp
    rw [hsplit2, List.drop_left' (by simp)]
  show replaceTablesAux grids
      ((pre ++ openM ++ body ++ closeM ++ suf).length + 1) t
      (pre ++ openM ++ body ++ closeM ++ suf) = _
  simp only [replaceTablesAux, h1, hdrop, h2, htake, hnl,
    Bool.false_eq_true, if_false, hp, htake2, hdrop2]
  rw [replaceTablesAux_fuel grids
    ((pre ++ openM ++ body ++ closeM ++ suf).length) (suf.length + 1) t suf
    (by omega) (by omega)]
  show _ = pre ++ openM ++ body ++ closeM ++
    replaceTablesAux grids (suf.length + 1) t suf
  simp [List.append_assoc]

theorem patchBlocks_length :
    ∀ (bs : List Block) (paras : List String) (pIdx : Nat)
      (grids : List (Option Grid)) (tIdx : Nat),
      (patchBlocks bs paras pIdx grids tIdx).length = bs.length
  | [], _, _, _, _ => rfl
  | .para p :: bs, paras, pIdx, grids, tIdx => by
    by_cases h : strip p.text = ""
    · simp only [patchBlocks, if_pos h, List.length_cons,
        patchBlocks_length bs paras pIdx grids tIdx]
    · simp only [patchBlocks, if_neg h, List.length_cons,
        patchBlocks_length bs paras (pIdx + 1) grids tIdx]
  | .table t :: bs, paras, pIdx, grids, tIdx => by
    simp only [patchBlocks, List.length_cons,
      patchBlocks_length bs paras pIdx grids (tIdx + 1)]

/-- An input whose first opening sentinel has no closing sentinel after
it is returned unchanged (the regex never matches). -/
theorem updateEditedFrom_noClose (grids : List (Option Grid)) (t : Nat)
    (s : List Char) (i : Nat) (h1 : findSub s openM = some i)
    (h2 : findSub (s.drop (i + openM.length)) closeM = none) :
    updateEditedFrom grids t s = s := by
  show replaceTablesAux grids (s.length + 1) t s = s
  simp only [replaceTablesAux, h1, h2]

/-- The editable-content scanner on an unterminated marker: the text
before the sentinel is pushed (when non-empty) and the remainder from
the sentinel onwards becomes a final text part; the loop ends normally. -/
theorem scanEditableAux_unterminated (s : List Char) (i : Nat)
    (h1 : findSub s openM = some i)
    (h2 : findSub (s.drop i) closeM = none) :
    scanEditableAux (s.length + 1) [] s 0 =
      (if s.take i = [] then [] else [.text (s.take i)]) ++
        [.text (s.drop i)] := by
  simp only [scanEditableAux, h1, h2, List.nil_append]

theorem setGridCell_ne (g : Grid) (r c : Nat) (v : String)
    (i j : Nat) (h : i ≠ r ∨ j ≠ c) :
    gridCellAt (setGridCell g r c v) i j = gridCellAt g i j := by
  unfold gridCellAt setGridCell
  by_cases hir : i = r
  · subst hir
    have hjc : j ≠ c := by
      rcases h with h' | h'
      · exact absurd rfl h'
      · exact h'
    by_cases hlen : i < g.length
    · rw [List.getElem?_set_self (by exact hlen)]
      cases hg : g[i]? with
      | none =>
        rw [List.getElem?_eq_none_iff] at hg
        omega
      | some row =>
        simp only [Option.some_bind, hg, Option.getD_some,
          List.getElem?_set_ne (Ne.symm hjc)]
    · have hnone1 : (g.set i ((g[i]?.getD []).set c v))[i]? = none := by
        rw [List.getElem?_eq_none_iff]
        simpa using hlen
      have hnone2 : g[i]? = none := by
        rw [List.getElem?_eq_none_iff]
        omega
      rw [hnone1, hnone2]
  · rw [List.getElem?_set_ne (Ne.symm hir)]

theorem setGridCell_eq (g : Grid) (r c : Nat) (v : String) (row : List String)
    (hr : g[r]? = some row) (hc : c < row.length) :
    gridCellAt (setGridCell g r c v) r c = some v := by
  unfold gridCellAt setGridCell
  have hrlen : r < g.length := by
    by_contra hcon
    rw [List.getElem?_eq_none_iff.2 (by omega)] at hr
    cases hr
  rw [List.getElem?_set_self hrlen]
  simp only [Option.some_bind, hr, Option.getD_some]
  rw [List.getElem?_set_self (by simpa using hc)]

/-- Either the per-paragraph patch is the identity, or the slot was
`some s` and the runs collapsed to the first run carrying `s`. -/
theorem patchPara_cases (p : Paragraph) (slot : Option String) :
    patchPara p slot = p ∨
      ∃ s r rs, slot = some s ∧ p.runs = r :: rs ∧
        patchPara p slot = { p with runs := [{ r with text := s }] } := by
  by_cases h1 : strip p.text = ""
  · left; simp [patchPara, h1]
  · cases slot with
    | none => left; simp [patchPara, h1]
    | some s =>
      by_cases h2 : s = strip p.text
      · left; simp [patchPara, h1, h2]
      · cases hr : p.runs with
        | nil => left; simp [patchPara, h1, h2, hr]
        | cons r rs =>
          right
          exact ⟨s, r, rs, rfl, rfl, by
            simp [patchPara, h1, h2, hr, patchRun1]⟩

/-! ## Claim theorems -/

/-- C1, counterexample to the claim as stated.  For the regression
document `["Intro", "", "Contractor: X"]`, extraction emits three flat
lines — one per paragraph, the empty one included — but re-application's
filter admits only two of them into the consumable pool and the walk over
all three paragraphs consumes only two slots: crossing the empty
paragraph (block 1) consumes nothing.  So re-application does not consume
one flat line per original paragraph, and the inclusion predicates of the
two sides are not identical. -/
theorem claim1_counterexample :
    (extract doc3).length = 3 ∧
    paragraphPool ((extract doc3).map toEdited) =
      ["Intro", "Contractor: X"] ∧
    slotBefore doc3.blocks 3 = 2 ∧
    doc3.blocks[1]? = some (.para (mkPara "" 10)) ∧
    extractLine (.para (mkPara "" 10)) = .plain "" ∧
    slotBefore doc3.blocks 2 = slotBefore doc3.blocks 1 ∧
    (2 : Nat) ≠ 3 := by decide

/-- C1, amended.  Extraction emits exactly one flat line per block — in
particular one per paragraph, empty or not — while re-application
consumes one slot per non-empty original paragraph only: marker lines
and blank lines enter no pool slot.  Because the two sides treat empty
paragraphs consistently (extracted as blank lines, which the
re-application filter skips), the spec §8 document retains its three
aligned paragraph slots after a round-trip with no shift. -/
theorem claim1_amended :
    (∀ d : Document, (extract d).length = d.blocks.length) ∧
    (∀ bs : List Block,
      (plainLines (bs.map extractLine)).length =
        (parasOfBlocks bs).length) ∧
    (∀ (og : Option Grid) (ls : List EditedLine),
      paragraphPool (.marker og :: ls) = paragraphPool ls) ∧
    (∀ (s : String) (ls : List EditedLine),
      paragraphPool (.plain s :: ls) =
        if strip s = "" then paragraphPool ls else s :: paragraphPool ls) ∧
    patchDoc exDoc (paragraphPool exEdited) (tableEntries exEdited) =
      exDocPatched := by
  refine ⟨fun d => by simp [extract], plainLines_extract,
    paragraphPool_marker, paragraphPool_plain, by decide⟩

/-- C2.  For a paragraph whose original trimmed text is non-empty, when
an edited text exists at its aligned slot and differs from the original,
patch sets the first run's text to the edited value and removes every
run after the first; a zero-run paragraph is left untouched.  The third
conjunct exhibits the aligned slot: the walk feeds each non-empty
paragraph the pool entry at its running index. -/
theorem claim2_single_run_replacement (p : Paragraph) (s : String)
    (h1 : strip p.text ≠ "") (h2 : s ≠ strip p.text) :
    (p.runs = [] → patchPara p (some s) = p) ∧
    (∀ (r : Run) (rs : List Run), p.runs = r :: rs →
      patchPara p (some s) = { p with runs := [{ r with text := s }] }) ∧
    (∀ (bs : List Block) (paras : List String) (pIdx : Nat)
        (grids : List (Option Grid)) (tIdx : Nat),
      patchBlocks (.para p :: bs) paras pIdx grids tIdx =
        .para (patchPara p paras[pIdx]?) ::
          patchBlocks bs paras (pIdx + 1) grids tIdx) := by
  refine ⟨?_, ?_, ?_⟩
  · intro hr
    simp only [patchPara, if_neg h1, if_neg h2, hr]
  · intro r rs hr
    simp only [patchPara, if_neg h1, if_neg h2, hr, patchRun1]
  · intro bs paras pIdx grids tIdx
    simp only [patchBlocks, if_neg h1]

/-- Witness for C2: a two-run paragraph collapses to a single run that
keeps the first run's formatting payload and carries the edited text. -/
theorem claim2_witness :
    patchPara ⟨[⟨"Hello ", 1⟩, ⟨"World", 3⟩], 5⟩ (some "Goodbye") =
      ⟨[⟨"Goodbye", 1⟩], 5⟩ :=
  (claim2_single_run_replacement ⟨[⟨"Hello ", 1⟩, ⟨"World", 3⟩], 5⟩
    "Goodbye" (by decide) (by decide)).2.1 ⟨"Hello ", 1⟩ [⟨"World", 3⟩] rfl

/-- C3, frame.  The patch never touches: empty paragraphs (conjunct 1),
paragraph-level formatting (2), any surviving run's non-text payload (3),
tables with no correspondence entry (4), table-level formatting and row
count (5), cell-level formatting and the paragraphs of a cell after the
first (6), everything outside the block list — headers, footers,
section/page properties, styles, media (7) — and it neither creates nor
deletes top-level blocks (8). -/
theorem claim3_frame :
    (∀ (p : Paragraph) (slot : Option String),
      strip p.text = "" → patchPara p slot = p) ∧
    (∀ (p : Paragraph) (slot : Option String),
      (patchPara p slot).pfmt = p.pfmt) ∧
    (∀ (p : Paragraph) (slot : Option String) (i : Nat) (r' : Run),
      (patchPara p slot).runs[i]? = some r' →
      ∃ r, p.runs[i]? = some r ∧ r'.fmt = r.fmt) ∧
    (∀ t : Table, patchTableOpt t none = t) ∧
    (∀ (t : Table) (g : Grid),
      (patchTable t g).tfmt = t.tfmt ∧
      (patchTable t g).rows.length = t.rows.length) ∧
    (∀ (c : Cell) (s : String),
      (patchCell c s).cfmt = c.cfmt ∧
      (patchCell c s).paragraphs.drop 1 = c.paragraphs.drop 1) ∧
    (∀ (d : Document) (paras : List String) (grids : List (Option Grid)),
      (patchDoc d paras grids).docRest = d.docRest) ∧
    (∀ (bs : List Block) (paras : List String) (pIdx : Nat)
        (grids : List (Option Grid)) (tIdx : Nat),
      (patchBlocks bs paras pIdx grids tIdx).length = bs.length) := by
  refine ⟨?_, ?_, ?_, fun t => rfl, ?_, ?_, fun d paras grids => rfl,
    patchBlocks_length⟩
  · intro p slot h
    unfold patchPara
    rw [if_pos h]
  · intro p slot
    rcases patchPara_cases p slot with h | ⟨s, r, rs, _, _, h⟩ <;> rw [h]
  · intro p slot i r' h
    rcases patchPara_cases p slot with hc | ⟨s, r, rs, _, hruns, hc⟩
    · rw [hc] at h
      exact ⟨r', h, rfl⟩
    · rw [hc] at h
      cases i with
      | zero =>
        simp only [List.getElem?_cons_zero] at h
        cases h
        exact ⟨r, by rw [hruns]; simp, rfl⟩
      | succ n =>
        simp at h
  · intro t g
    exact ⟨rfl, by unfold patchTable; exact zipPatch_length patchRow t.rows g⟩
  · intro c s
    cases hcp : c.paragraphs with
    | nil => simp [patchCell, hcp]
    | cons q qs => simp [patchCell, hcp]

/-- Witness for C3: an empty paragraph is untouched even when an edited
slot is on offer. -/
theorem claim3_witness :
    patchPara (mkPara "" 10) (some "ZZZ") = mkPara "" 10 :=
  claim3_frame.1 (mkPara "" 10) (some "ZZZ") (by decide)

/-- C4.  If the patch attempt raises, the whole patch result is
discarded: exactly one rebuild attempt is made, its result is what gets
saved and the call returns `degraded = true`; if the rebuild itself
raises, that error propagates and no document is produced.  If the patch
succeeds, no rebuild runs and `degraded = false`. -/
theorem claim4_fallback (patchRes rebuildRes : Except String Document) :
    (∀ e, patchRes = .error e →
      (applySelectiveEdits patchRes rebuildRes).2 = 1 ∧
      (∀ d, rebuildRes = .ok d →
        (applySelectiveEdits patchRes rebuildRes).1 = .ok (d, true)) ∧
      (∀ e2, rebuildRes = .error e2 →
        (applySelectiveEdits patchRes rebuildRes).1 = .error e2)) ∧
    (∀ d, patchRes = .ok d →
      (applySelectiveEdits patchRes rebuildRes).1 = .ok (d, false) ∧
      (applySelectiveEdits patchRes rebuildRes).2 = 0) := by
  constructor
  · intro e he
    subst he
    cases rebuildRes with
    | ok d =>
      refine ⟨rfl, ?_, ?_⟩
      · intro d2 h
        cases h
        rfl
      · intro e2 h
        cases h
    | error e2 =>
      refine ⟨rfl, ?_, ?_⟩
      · intro d2 h
        cases h
      · intro e3 h
        cases h
        rfl
  · intro d hd
    subst hd
    exact ⟨rfl, rfl⟩

/-- Witness for C4: a failing patch followed by a succeeding rebuild
saves the rebuilt document with `degraded = true` after one attempt. -/
theorem claim4_witness :
    (applySelectiveEdits (.error "patch failed") (.ok doc3)).1 =
      .ok (doc3, true) ∧
    (applySelectiveEdits (.error "patch failed") (.ok doc3)).2 = 1 :=
  ⟨((claim4_fallback (.error "patch failed") (.ok doc3)).1 "patch failed"
      rfl).2.1 doc3 rfl,
   ((claim4_fallback (.error "patch failed") (.ok doc3)).1 "patch failed"
      rfl).1⟩

/-- C5, identity round-trip.  When the edited flat text is exactly the
extractor's output, the patch leaves the whole document — every
paragraph text and every table cell text included — unchanged. -/
theorem claim5_identity_roundtrip (d : Document) (edited : List EditedLine)
    (h : edited = (extract d).map toEdited) :
    patchDoc d (paragraphPool edited) (tableEntries edited) = d := by
  subst h
  show patchDoc d (paragraphPool ((d.blocks.map extractLine).map toEdited))
      (tableEntries ((d.blocks.map extractLine).map toEdited)) = d
  rw [paragraphPool_extract, tableEntries_extract]
  unfold patchDoc
  have h0 := patchBlocks_pool d.blocks [] []
  simp only [List.nil_append, List.length_nil] at h0
  rw [h0]

/-- Witness for C5: the spec §8 document round-trips unchanged. -/
theorem claim5_witness :
    patchDoc exDoc (paragraphPool ((extract exDoc).map toEdited))
      (tableEntries ((extract exDoc).map toEdited)) = exDoc :=
  claim5_identity_roundtrip exDoc _ rfl

/-- C6, undersupply never fails.  The patch walk is total and returns one
block per original block (conjunct 1); and whenever the pool of edited
lines is exhausted before a paragraph's slot comes up, that paragraph is
left completely unchanged (conjunct 2): edited lines running out never
raises and never edits the remaining paragraphs. -/
theorem claim6_undersupply :
    (∀ (bs : List Block) (paras : List String) (pIdx : Nat)
        (grids : List (Option Grid)) (tIdx : Nat),
      (patchBlocks bs paras pIdx grids tIdx).length = bs.length) ∧
    (∀ (bs : List Block) (paras : List String) (pIdx : Nat)
        (grids : List (Option Grid)) (tIdx : Nat) (j : Nat) (p : Paragraph),
      paraAt bs j = some p →
      paras.length ≤ pIdx + slotBefore bs j →
      paraAt (patchBlocks bs paras pIdx grids tIdx) j = some p) :=
  ⟨patchBlocks_length, patchBlocks_undersupply⟩

/-- Witness for C6: with a one-line edit against the three-paragraph
regression document, the third paragraph (slot 2, beyond the single
supplied line) keeps its original text and runs. -/
theorem claim6_witness :
    paraAt (patchBlocks doc3.blocks ["Intro edited"] 0 [] 0) 2 =
      some (mkPara "Contractor: X" 20) :=
  claim6_undersupply.2 doc3.blocks ["Intro edited"] 0 [] 0 2
    (mkPara "Contractor: X" 20) (by decide) (by decide)

/-- C7, malformed table marker.  A marker region whose grid JSON fails
to parse (`jparse` is the exact `JSON.parse` acceptance model) is
reproduced verbatim by `updateEditedContent` — the table is left
completely unedited — while scanning continues on the rest of the string
with the same pending edits and the same table ordinal (the `catch` does
not advance `tableIndex`), and no exception escapes (the function is
total).  On the mapper side the table's correspondence entry is `null`,
and a `null` entry makes the patcher leave the original table
untouched. -/
theorem claim7_malformed_marker (grids : List (Option Grid)) (t : Nat)
    (pre body suf : List Char) (ls1 ls2 : List EditedLine) (tbl : Table)
    (h1 : findSub (pre ++ openM ++ body ++ closeM ++ suf) openM =
      some pre.length)
    (h2 : findSub (body ++ closeM ++ suf) closeM = some body.length)
    (hnl : body.any jsLineTerm = false)
    (hp : jparse body = none) :
    updateEditedFrom grids t (pre ++ openM ++ body ++ closeM ++ suf) =
      pre ++ openM ++ body ++ closeM ++ updateEditedFrom grids t suf ∧
    tableEntries (ls1 ++ .marker none :: ls2) =
      tableEntries ls1 ++ none :: tableEntries ls2 ∧
    patchTableOpt tbl none = tbl := by
  refine ⟨updateEditedFrom_malformed grids t pre body suf h1 h2 hnl hp,
    ?_, rfl⟩
  simp [tableEntries, List.filterMap_append]

/-- Witness for C7: a marker body whose string holds a raw tab — which
`JSON.parse` rejects (raw control characters are illegal inside JSON
strings) — is reproduced verbatim even though a pending edit exists for
table 0. -/
theorem claim7_witness :
    updateEditedFrom [some [["Z"]]] 0
      ("x".toList ++ openM ++ "[[\"a\tb\"]]".toList ++ closeM ++
        "y".toList) =
      "x".toList ++ openM ++ "[[\"a\tb\"]]".toList ++ closeM ++
        updateEditedFrom [some [["Z"]]] 0 "y".toList ∧
    tableEntries ([] ++ .marker none :: []) =
      tableEntries [] ++ none :: tableEntries [] ∧
    patchTableOpt exTable none = exTable :=
  claim7_malformed_marker [some [["Z"]]] 0 "x".toList
    "[[\"a\tb\"]]".toList "y".toList [] [] exTable
    (by decide) (by decide) (by decide) rfl

/-- C8, counterexample to the claim as stated.  The claim says the parse
raises an error exactly on an unterminated table marker; but on
`"abc[TABELA_JSON]def"` — which does contain an unterminated marker —
`processEditableContent` returns normally (the remainder is treated as
text), so the biconditional fails. -/
theorem claim8_counterexample :
    ¬ (((processEditableContentE "abc[TABELA_JSON]def".toList).isOk =
        false) ↔
      (unterminated "abc[TABELA_JSON]def".toList = true)) := by
  decide

/-- C8, amended.  Parsing the edited flat text never raises: every code
path of the scanner returns normally (conjunct 1), and in particular an
unterminated table marker makes the text before the sentinel a text part
and the remainder from the sentinel onwards a final text part rather
than an error (conjunct 2).  No misalignment of the flat text raises. -/
theorem claim8_amended :
    (∀ content : List Char,
      (processEditableContentE content).isOk = true) ∧
    (∀ (s : List Char) (i : Nat),
      findSub s openM = some i → findSub (s.drop i) closeM = none →
      scanEditableAux (s.length + 1) [] s 0 =
        (if s.take i = [] then [] else [.text (s.take i)]) ++
          [.text (s.drop i)]) :=
  ⟨fun _ => rfl, scanEditableAux_unterminated⟩

/-- Witness for C8: the unterminated-marker input splits into its two
text parts and the scan ends normally. -/
theorem claim8_witness :
    scanEditableAux ("abc[TABELA_JSON]def".toList.length + 1) []
      "abc[TABELA_JSON]def".toList 0 =
      (if "abc[TABELA_JSON]def".toList.take 3 = [] then []
       else [.text ("abc[TABELA_JSON]def".toList.take 3)]) ++
        [.text ("abc[TABELA_JSON]def".toList.drop 3)] :=
  claim8_amended.2 "abc[TABELA_JSON]def".toList 3 (by decide) (by decide)

/-- C9, table cell isolation and intersection-of-shapes.  The table
patch preserves row count and acts index-wise: a row present in both the
table and the grid is patched, a row missing on either side is skipped,
never created or deleted; the same holds per-cell within a row.  Editing
cell [2][1] of a 3×3 table changes exactly that cell and leaves the
other eight (and every formatting payload) untouched.  The frontend
`updateCell` state update leaves every other table entry unchanged and,
within a grid, every other cell unchanged while writing the edited value
in place. -/
theorem claim9_cell_isolation :
    (∀ (t : Table) (g : Grid),
      (patchTable t g).rows.length = t.rows.length) ∧
    (∀ (t : Table) (g : Grid) (i : Nat) (r : Row) (gr : List String),
      t.rows[i]? = some r → g[i]? = some gr →
      (patchTable t g).rows[i]? = some (patchRow r gr)) ∧
    (∀ (t : Table) (g : Grid) (i : Nat) (r : Row),
      t.rows[i]? = some r → g[i]? = none →
      (patchTable t g).rows[i]? = some r) ∧
    (∀ (t : Table) (g : Grid) (i : Nat),
      t.rows[i]? = none → (patchTable t g).rows[i]? = none) ∧
    (∀ (r : Row) (gr : List String),
      (patchRow r gr).cells.length = r.cells.length) ∧
    (∀ (r : Row) (gr : List String) (k : Nat) (c : Cell) (s : String),
      r.cells[k]? = some c → gr[k]? = some s →
      (patchRow r gr).cells[k]? = some (patchCell c s)) ∧
    (∀ (r : Row) (gr : List String) (k : Nat) (c : Cell),
      r.cells[k]? = some c → gr[k]? = none →
      (patchRow r gr).cells[k]? = some c) ∧
    (∀ (r : Row) (gr : List String) (k : Nat),
      r.cells[k]? = none → (patchRow r gr).cells[k]? = none) ∧
    patchTable table3 grid3Edit = table3Patched ∧
    (∀ i < 3, ∀ j < 3, ¬(i = 2 ∧ j = 1) →
      cellAt (patchTable table3 grid3Edit) i j = cellAt table3 i j) ∧
    (∀ (tables : List (Option Grid)) (td : Grid) (tIdx rI cI : Nat)
        (v : String) (k : Nat), k < tables.length → k ≠ tIdx →
      (updateCell tables td tIdx rI cI v)[k]? = tables[k]?) ∧
    (∀ (g : Grid) (rI cI : Nat) (v : String) (i j : Nat),
      (i ≠ rI ∨ j ≠ cI) →
      gridCellAt (setGridCell g rI cI v) i j = gridCellAt g i j) ∧
    (∀ (g : Grid) (rI cI : Nat) (v : String) (row : List String),
      g[rI]? = some row → cI < row.length →
      gridCellAt (setGridCell g rI cI v) rI cI = some v) := by
  refine ⟨?_, ?_, ?_, ?_, ?_, ?_, ?_, ?_, by decide, by decide, ?_,
    setGridCell_ne, setGridCell_eq⟩
  · intro t g
    exact zipPatch_length patchRow t.rows g
  · intro t g i r gr h1 h2
    have h := zipPatch_getElem? patchRow t.rows g i
    rw [h1, h2] at h
    simpa only [patchTable] using h
  · intro t g i r h1 h2
    have h := zipPatch_getElem? patchRow t.rows g i
    rw [h1, h2] at h
    simpa only [patchTable] using h
  · intro t g i h1
    have h := zipPatch_getElem? patchRow t.rows g i
    rw [h1] at h
    simpa only [patchTable] using h
  · intro r gr
    exact zipPatch_length patchCell r.cells gr
  · intro r gr k c s h1 h2
    have h := zipPatch_getElem? patchCell r.cells gr k
    rw [h1, h2] at h
    simpa only [patchRow] using h
  · intro r gr k c h1 h2
    have h := zipPatch_getElem? patchCell r.cells gr k
    rw [h1, h2] at h
    simpa only [patchRow] using h
  · intro r gr k h1
    have h := zipPatch_getElem? patchCell r.cells gr k
    rw [h1] at h
    simpa only [patchRow] using h
  · intro tables td tIdx rI cI v k hk hne
    unfold updateCell
    rw [List.getElem?_set_ne (Ne.symm hne), List.getElem?_append_left hk]

/-- Witness for C9: editing cell [1][0] of a 2×2 grid writes that cell. -/
theorem claim9_witness :
    gridCellAt (setGridCell [["x", "y"], ["z", "w"]] 1 0 "EDIT") 1 0 =
      some "EDIT" :=
  claim9_cell_isolation.2.2.2.2.2.2.2.2.2.2.2.2
    [["x", "y"], ["z", "w"]] 1 0 "EDIT" ["z", "w"] (by decide) (by decide)

end ContratosCS
